import Mathlib

/-!
Verification development for the snare-drum-detector repository.

The repository's visible source holds the web game clients
(`apps/drum-web/app/routes/game.tsx`, `apps/snare-web`), the launch
scripts (`start-detector.bat`, `start-detector-v2.bat`) and the wire
message declarations (`HitMessage`, `ConnectedMessage`).  The detector
process itself (`apps/detector/main-v2.py`, invoked by the launch
scripts) is not part of the visible source, so the detector and the
event broadcaster are modelled from the specification; the game client's
WebSocket message handler is embedded directly from
`apps/drum-web/app/routes/game.tsx`.

Numeric values (RMS loudness, thresholds, decay factors, timestamps) are
modelled over ℚ.
-/

namespace SnareDrum

/-- Modelled from the spec: `DetectorConfig` of the missing detector
process (`apps/detector/main-v2.py`): `threshold` (minimum envelope
value that qualifies as a hit) and `decay` (per-step multiplicative
falloff, in `[0,1)`). -/
structure DetectorConfig where
  threshold : ℚ
  decay : ℚ
deriving DecidableEq, Repr

/-- Modelled from the spec: startup validation of the missing detector
process's configuration. `decay ≥ 1` and a non-positive `threshold` are
configuration errors, fatal at startup; `decay` anywhere in `[0,1)` is
valid. -/
def validateConfig (cfg : DetectorConfig) : Bool :=
  decide (0 < cfg.threshold) && decide (0 ≤ cfg.decay) && decide (cfg.decay < 1)

/-- Modelled from the spec: the mutable state of the missing detector
process: the envelope scalar, the two-state machine flag (`refractory =
true` means a hit has just been counted and continued ringing is
ignored), and the running hit counter. -/
structure DetectorState where
  envelope : ℚ
  refractory : Bool
  hitCount : ℕ
deriving DecidableEq, Repr

/-- Modelled from the spec: the `HitEvent` record emitted by the missing
detector process, matching the `HitMessage` declaration in
`apps/drum-web/app/routes/game.tsx`. -/
structure HitEvent where
  timestamp : ℚ
  hit_number : ℕ
  rms_value : ℚ
  threshold : ℚ
deriving DecidableEq, Repr

/-- Modelled from the spec: the per-frame step of the missing detector
process.  `r` is the frame's instantaneous loudness (its RMS value) and
`t` the frame's timestamp.  The envelope update is
`max(instantaneous, envelope * decay)`; a `HitEvent` is emitted exactly
on the below-threshold → refractory transition, where the envelope
crosses from ≤ `threshold` to > `threshold`. -/
def stepDetector (cfg : DetectorConfig) (s : DetectorState) (t : ℚ) (r : ℚ) :
    DetectorState × Option HitEvent :=
  let env := max r (s.envelope * cfg.decay)
  if s.refractory then
    ({ envelope := env, refractory := decide (cfg.threshold < env),
       hitCount := s.hitCount }, none)
  else if cfg.threshold < env then
    ({ envelope := env, refractory := true, hitCount := s.hitCount + 1 },
     some { timestamp := t, hit_number := s.hitCount + 1, rms_value := env,
            threshold := cfg.threshold })
  else
    ({ envelope := env, refractory := false, hitCount := s.hitCount }, none)

/-- Modelled from the spec: the analysis loop of the missing detector
process, run from state `s` over the frames' RMS values `rs`, the next
frame carrying timestamp `i` (frame index as time).  Returns the final
state and the per-frame emission trace (`none` for frames that emit no
event). -/
def runFrom (cfg : DetectorConfig) : DetectorState → ℕ → List ℚ →
    DetectorState × List (Option HitEvent)
  | s, _, [] => (s, [])
  | s, i, r :: rs =>
    let p := stepDetector cfg s i r
    let q := runFrom cfg p.1 (i + 1) rs
    (q.1, p.2 :: q.2)

/-- Modelled from the spec: the initial detector state: zero envelope,
below-threshold, no hits counted yet. -/
def initState : DetectorState :=
  { envelope := 0, refractory := false, hitCount := 0 }

/-- Modelled from the spec: the list of `HitEvent`s the missing detector
process emits over a frame sequence, in order. -/
def detectorEvents (cfg : DetectorConfig) (rs : List ℚ) : List HitEvent :=
  (runFrom cfg initState 0 rs).2.filterMap id

/-- Modelled from the spec: starting the missing detector process:
the configuration is validated before any audio capture; an invalid
configuration is rejected and the run never happens. -/
def startDetector (cfg : DetectorConfig) (rs : List ℚ) : Option (List HitEvent) :=
  if validateConfig cfg then some (detectorEvents cfg rs) else none

/-- The configuration shown by the launch script `start-detector-v2.bat`:
`threshold=0.2, decay=0.95`. -/
def cfgV2 : DetectorConfig :=
  { threshold := 1/5, decay := 19/20 }

/-- Modelled from the spec: a server→client message of the missing
broadcaster: either the `connected` acknowledgement sent once to a newly
accepted client, or a serialized `HitEvent` fanned out to every live
client. -/
inductive ServerMsg where
  | connectedMsg (timestamp : ℚ) (message : String)
  | hitMsg (ev : HitEvent)
deriving DecidableEq

/-- Modelled from the spec: the connection-lifecycle and detector events
the missing broadcaster reacts to: a client connecting (with the accept
time), a client disconnecting, and a `HitEvent` arriving from the
detector. -/
inductive BroadcastEvent where
  | accept (c : ℕ) (t : ℚ)
  | disconnect (c : ℕ)
  | hit (ev : HitEvent)
deriving DecidableEq

/-- Modelled from the spec: the fixed text of the `connected`
acknowledgement message. -/
def connectedText : String := "connected"

/-- Modelled from the spec: one step of the missing broadcaster.  State
is the live set of client connections (client ids); `failing` says whose
send fails during a hit broadcast.  On accept, the new client (and only
it) is sent one `ConnectedMessage`; on disconnect the client is removed;
on a `HitEvent` the event is delivered to every currently live client
and clients whose send failed are removed from the live set.  Returns
the new live set and the deliveries (recipient, message) performed. -/
def bstep (failing : ℕ → Bool) (live : List ℕ) :
    BroadcastEvent → List ℕ × List (ℕ × ServerMsg)
  | .accept c t => (c :: live, [(c, ServerMsg.connectedMsg t connectedText)])
  | .disconnect c => (live.erase c, [])
  | .hit ev => (live.filter (fun c => !failing c),
                live.map (fun c => (c, ServerMsg.hitMsg ev)))

/-- Modelled from the spec: the missing broadcaster run over a sequence
of lifecycle/detector events, accumulating all deliveries in order. -/
def brun (failing : ℕ → Bool) : List ℕ → List BroadcastEvent →
    List ℕ × List (ℕ × ServerMsg)
  | live, [] => (live, [])
  | live, e :: es =>
    let p := bstep failing live e
    let q := brun failing p.1 es
    (q.1, p.2 ++ q.2)

/-- Whether the event is an accept of client `c`. -/
def acceptsClient (c : ℕ) : BroadcastEvent → Bool
  | .accept d _ => d == c
  | _ => false

/-! ### Game client (`apps/drum-web/app/routes/game.tsx`)

The WebSocket message handler `ws.onmessage` (lines 130–168 of
`game.tsx`, identical in the unnamed copy) is embedded below.  The
handler parses the incoming data inside a try/catch (a parse throw is
caught and leaves all state untouched), logs `connected` messages, and
on a `hit` message reacts only when the game status (read through
`gameStatusRef`) is `"playing"`: it increments the score by 1, continues
or resets the combo based on a 2-second window since the last hit,
records the hit timestamp and recomputes the hit rate, and triggers the
drum animation. -/

/-- The `GameStatus` union type of `game.tsx`. -/
inductive GameStatus where
  | ready
  | countdown
  | playing
  | ended
deriving DecidableEq

/-- The game-side client state touched by `ws.onmessage`: the `score`,
`currentCombo`, `bestCombo` and `hitRate` React states, the
`lastHitTimeRef` and `hitTimestampsRef` refs, and the `drumAnimation`
flag.  Times are unix milliseconds (modelled as ℤ). -/
structure ClientGameState where
  score : ℕ
  currentCombo : ℕ
  bestCombo : ℕ
  lastHitTime : ℤ
  hitTimestamps : List ℤ
  drumAnimation : Bool
  hitRate : ℚ
deriving DecidableEq

/-- The result of `JSON.parse(event.data) as HitMessage |
ConnectedMessage` in `game.tsx`: the cast is unchecked, so any parsed
JSON value flows through; a value whose `type` field is neither
`"connected"` nor `"hit"` matches no branch (`otherMsg`). -/
inductive ClientWsMessage where
  | connectedMsg (timestamp : ℤ) (message : String)
  | hitMsg (timestamp : ℤ) (hit_number : ℕ) (rms_value : ℚ) (threshold : ℚ)
  | otherMsg
deriving DecidableEq

/-- Embeds `calculateHitRate` of `game.tsx` (lines 131–138): hits within the
last 5 seconds of `now`, divided by 5, rounded to one decimal
(`Math.round(rate * 10) / 10`). -/
def calculateHitRate (now : ℤ) (timestamps : List ℤ) : ℚ :=
  let recentHits := timestamps.filter (fun ts => decide (now - ts < 5000))
  let rate : ℚ := (recentHits.length : ℚ) / 5
  ((round (rate * 10) : ℤ) : ℚ) / 10

/-- The `ws.onmessage` handler of `game.tsx`.  `data = none` models
`JSON.parse` throwing, in which case the catch block leaves every piece
of game state unchanged.  A `connected` message is only logged.  A `hit`
message is acted on only when `status` is `playing`: score increments by
1; the combo continues (`currentCombo + 1`, folding into `bestCombo`)
when the hit is within 2000 ms of the previous one and resets to 1
otherwise (leaving `bestCombo` as is, as the source does); the hit
timestamp is pushed and the hit rate recomputed; the drum animation is
triggered. -/
def onmessage (status : GameStatus) (now : ℤ) (data : Option ClientWsMessage)
    (s : ClientGameState) : ClientGameState :=
  match data with
  | none => s
  | some (.connectedMsg _ _) => s
  | some .otherMsg => s
  | some (.hitMsg _ _ _ _) =>
    if status = .playing then
      let comboContinues := decide (now - s.lastHitTime < 2000)
      let newCombo := if comboContinues then s.currentCombo + 1 else 1
      let newBest := if comboContinues then max s.bestCombo newCombo else s.bestCombo
      let newTimestamps := s.hitTimestamps ++ [now]
      { score := s.score + 1
        currentCombo := newCombo
        bestCombo := newBest
        lastHitTime := now
        hitTimestamps := newTimestamps
        drumAnimation := true
        hitRate := calculateHitRate now newTimestamps }
    else s

theorem runFrom_nil (cfg : DetectorConfig) (s : DetectorState) (i : ℕ) :
    runFrom cfg s i [] = (s, []) := rfl

theorem runFrom_cons (cfg : DetectorConfig) (s : DetectorState) (i : ℕ)
    (r : ℚ) (rs : List ℚ) :
    runFrom cfg s i (r :: rs) =
      ((runFrom cfg (stepDetector cfg s i r).1 (i + 1) rs).1,
       (stepDetector cfg s i r).2 :: (runFrom cfg (stepDetector cfg s i r).1 (i + 1) rs).2) := rfl

theorem stepDetector_envelope (cfg : DetectorConfig) (s : DetectorState)
    (t r : ℚ) :
    (stepDetector cfg s t r).1.envelope = max r (s.envelope * cfg.decay) := by
  unfold stepDetector
  by_cases hs : s.refractory
  · simp [hs]
  · by_cases hc : cfg.threshold < max r (s.envelope * cfg.decay)
    · simp [hs, hc]
    · simp [hs, hc]

theorem stepDetector_none_hitCount (cfg : DetectorConfig) (s : DetectorState)
    (t r : ℚ) (h : (stepDetector cfg s t r).2 = none) :
    (stepDetector cfg s t r).1.hitCount = s.hitCount := by
  unfold stepDetector at *
  by_cases hs : s.refractory
  · simp [hs]
  · by_cases hc : cfg.threshold < max r (s.envelope * cfg.decay)
    · simp [hs, hc] at h
    · simp [hs, hc]

theorem stepDetector_some_hitCount (cfg : DetectorConfig) (s : DetectorState)
    (t r : ℚ) (ev : HitEvent) (h : (stepDetector cfg s t r).2 = some ev) :
    ev.hit_number = s.hitCount + 1 ∧
    (stepDetector cfg s t r).1.hitCount = s.hitCount + 1 := by
  unfold stepDetector at *
  by_cases hs : s.refractory
  · simp [hs] at h
  · by_cases hc : cfg.threshold < max r (s.envelope * cfg.decay)
    · simp [hs, hc] at h ⊢
      simp [← h]
    · simp [hs, hc] at h

theorem runFrom_hit_numbers (cfg : DetectorConfig) :
    ∀ (rs : List ℚ) (s : DetectorState) (i : ℕ),
      ((runFrom cfg s i rs).2.filterMap id).map HitEvent.hit_number =
        List.range' (s.hitCount + 1) ((runFrom cfg s i rs).2.filterMap id).length := by
  intro rs
  induction rs with
  | nil => intro s i; simp [runFrom_nil]
  | cons r rs ih =>
    intro s i
    rw [runFrom_cons]
    rcases hev : (stepDetector cfg s i r).2 with _ | ev
    · simp only [List.filterMap_cons, hev, id_eq]
      rw [ih _ _, stepDetector_none_hitCount cfg s i r hev]
    · simp only [List.filterMap_cons, hev, id_eq, List.map_cons, List.length_cons,
        List.range'_succ]
      rw [ih _ _, (stepDetector_some_hitCount cfg s i r ev hev).2,
        (stepDetector_some_hitCount cfg s i r ev hev).1]

theorem mul_decay_le_threshold {cfg : DetectorConfig} (hd0 : 0 ≤ cfg.decay)
    (hd1 : cfg.decay ≤ 1) (hth : 0 ≤ cfg.threshold) {e : ℚ}
    (he : e ≤ cfg.threshold) : e * cfg.decay ≤ cfg.threshold := by
  rcases le_or_lt e 0 with h | h
  · exact le_trans (mul_nonpos_of_nonpos_of_nonneg h hd0) hth
  · exact le_trans (mul_le_of_le_one_right h.le hd1) he

theorem stepDetector_quiet (cfg : DetectorConfig) (s : DetectorState)
    (t r : ℚ) (hd0 : 0 ≤ cfg.decay) (hd1 : cfg.decay ≤ 1)
    (hth : 0 ≤ cfg.threshold) (hrf : s.refractory = false)
    (henv : s.envelope ≤ cfg.threshold) (hr : r ≤ cfg.threshold) :
    stepDetector cfg s t r =
      ({ envelope := max r (s.envelope * cfg.decay), refractory := false,
         hitCount := s.hitCount }, none) ∧
    max r (s.envelope * cfg.decay) ≤ cfg.threshold := by
  have hmax : max r (s.envelope * cfg.decay) ≤ cfg.threshold :=
    max_le hr (mul_decay_le_threshold hd0 hd1 hth henv)
  refine ⟨?_, hmax⟩
  simp [stepDetector, hrf, not_lt.mpr hmax]

theorem runFrom_quiet (cfg : DetectorConfig) (hd0 : 0 ≤ cfg.decay)
    (hd1 : cfg.decay ≤ 1) (hth : 0 ≤ cfg.threshold) :
    ∀ (pre : List ℚ) (s : DetectorState) (i : ℕ),
      (∀ x ∈ pre, x ≤ cfg.threshold) → s.refractory = false →
      s.envelope ≤ cfg.threshold →
      (runFrom cfg s i pre).2 = List.replicate pre.length none ∧
      (runFrom cfg s i pre).1.refractory = false ∧
      (runFrom cfg s i pre).1.envelope ≤ cfg.threshold ∧
      (runFrom cfg s i pre).1.hitCount = s.hitCount := by
  intro pre
  induction pre with
  | nil => intro s i _ hrf henv; simpa [runFrom_nil] using ⟨hrf, henv⟩
  | cons x pre ih =>
    intro s i hall hrf henv
    have hstep := stepDetector_quiet cfg s i x hd0 hd1 hth hrf henv
      (hall x (List.mem_cons_self x pre))
    have ihx := ih (stepDetector cfg s i x).1 (i + 1)
      (fun y hy => hall y (List.mem_cons_of_mem x hy))
      (by rw [hstep.1]) (by rw [hstep.1]; exact hstep.2)
    rw [runFrom_cons]
    refine ⟨?_, ihx.2.1, ihx.2.2.1, ?_⟩
    · simp only [List.length_cons, List.replicate_succ, ihx.1]
      rw [hstep.1]
    · rw [ihx.2.2.2, hstep.1]

theorem chain_ge_of_le {e f : ℚ} {l : List ℚ}
    (h : List.Chain (fun a b => b ≤ a) e l) (hef : e ≤ f) :
    List.Chain (fun a b => b ≤ a) f l := by
  cases h with
  | nil => exact List.Chain.nil
  | cons hab hchain => exact List.Chain.cons (le_trans hab hef) hchain

theorem runFrom_decaying (cfg : DetectorConfig) (hd0 : 0 ≤ cfg.decay)
    (hd1 : cfg.decay ≤ 1) (hth : 0 ≤ cfg.threshold) :
    ∀ (l : List ℚ) (s : DetectorState) (i : ℕ),
      List.Chain (fun a b => b ≤ a) s.envelope l →
      (s.refractory = false → s.envelope ≤ cfg.threshold) →
      (runFrom cfg s i l).2 = List.replicate l.length none ∧
      (runFrom cfg s i l).1.hitCount = s.hitCount := by
  intro l
  induction l with
  | nil => intro s i _ _; simp [runFrom_nil]
  | cons r l ih =>
    intro s i hchain hquiet
    have hr := List.rel_of_chain_cons hchain
    have hchain2 := List.chain_of_chain_cons hchain
    have hrmax : r ≤ max r (s.envelope * cfg.decay) := le_max_left _ _
    rcases hrf : s.refractory with _ | _
    · -- quiescent: the envelope stays at or below the threshold, no emission
      have hstep := stepDetector_quiet cfg s i r hd0 hd1 hth hrf (hquiet hrf)
        (le_trans hr (hquiet hrf))
      have ihx := ih (stepDetector cfg s i r).1 (i + 1)
        (by rw [hstep.1]; exact chain_ge_of_le hchain2 hrmax)
        (by rw [hstep.1]; intro _; exact hstep.2)
      rw [runFrom_cons]
      refine ⟨?_, ?_⟩
      · simp only [List.length_cons, List.replicate_succ, ihx.1]
        rw [hstep.1]
      · rw [ihx.2, hstep.1]
    · -- refractory: continued ringing is absorbed, no emission
      have hstep : stepDetector cfg s i r =
          ({ envelope := max r (s.envelope * cfg.decay),
             refractory := decide (cfg.threshold < max r (s.envelope * cfg.decay)),
             hitCount := s.hitCount }, none) := by
        simp [stepDetector, hrf]
      have ihx := ih (stepDetector cfg s i r).1 (i + 1)
        (by rw [hstep]; exact chain_ge_of_le hchain2 hrmax)
        (by rw [hstep]; intro hfalse; simp only [decide_eq_false_iff_not, not_lt] at hfalse
            exact hfalse)
      rw [runFrom_cons]
      refine ⟨?_, ?_⟩
      · simp only [List.length_cons, List.replicate_succ, ihx.1]
        rw [hstep]
      · rw [ihx.2, hstep]

theorem stepDetector_refractory (cfg : DetectorConfig) (s : DetectorState)
    (t r : ℚ) (hrf : s.refractory = true) :
    stepDetector cfg s t r =
      ({ envelope := max r (s.envelope * cfg.decay),
         refractory := decide (cfg.threshold < max r (s.envelope * cfg.decay)),
         hitCount := s.hitCount }, none) := by
  simp [stepDetector, hrf]

theorem runFrom_loud (cfg : DetectorConfig) :
    ∀ (l : List ℚ) (s : DetectorState) (i : ℕ),
      s.refractory = true → (∀ x ∈ l, cfg.threshold < x) →
      (runFrom cfg s i l).2 = List.replicate l.length none ∧
      (runFrom cfg s i l).1.refractory = true ∧
      (runFrom cfg s i l).1.hitCount = s.hitCount ∧
      ∀ x, l.getLast? = some x → x ≤ (runFrom cfg s i l).1.envelope := by
  intro l
  induction l with
  | nil =>
    intro s i hrf _
    refine ⟨rfl, hrf, rfl, fun x hx => ?_⟩
    simp at hx
  | cons r l ih =>
    intro s i hrf hloud
    have hr : cfg.threshold < r := hloud r (List.mem_cons_self r l)
    have hlt : cfg.threshold < max r (s.envelope * cfg.decay) :=
      lt_of_lt_of_le hr (le_max_left _ _)
    have hstep := stepDetector_refractory cfg s i r hrf
    have hrf2 : (stepDetector cfg s (i : ℚ) r).1.refractory = true := by
      rw [hstep]
      exact decide_eq_true hlt
    have ihx := ih (stepDetector cfg s i r).1 (i + 1) hrf2
      (fun y hy => hloud y (List.mem_cons_of_mem r hy))
    rw [runFrom_cons]
    refine ⟨?_, ihx.2.1, ?_, ?_⟩
    · simp only [List.length_cons, List.replicate_succ, ihx.1]
      rw [hstep]
    · rw [ihx.2.2.1, hstep]
    · intro x hx
      rcases l with _ | ⟨y, l⟩
      · -- the last frame is `r` itself; the envelope after the step is ≥ r
        simp only [List.getLast?_singleton, Option.some.injEq] at hx
        subst hx
        have := ihx.1
        simp only [List.length_nil, List.replicate_zero] at this
        have hfin : (runFrom cfg (stepDetector cfg s (i : ℚ) r).1 (i + 1) []).1 =
            (stepDetector cfg s (i : ℚ) r).1 := by rw [runFrom_nil]
        rw [hfin, hstep]
        exact le_max_left _ _
      · exact ihx.2.2.2 x (by simpa using hx)

theorem runFrom_append (cfg : DetectorConfig) :
    ∀ (l1 l2 : List ℚ) (s : DetectorState) (i : ℕ),
      runFrom cfg s i (l1 ++ l2) =
        ((runFrom cfg (runFrom cfg s i l1).1 (i + l1.length) l2).1,
         (runFrom cfg s i l1).2 ++
           (runFrom cfg (runFrom cfg s i l1).1 (i + l1.length) l2).2) := by
  intro l1
  induction l1 with
  | nil => intro l2 s i; simp [runFrom_nil]
  | cons a l1 ih =>
    intro l2 s i
    simp only [List.cons_append, runFrom_cons, ih, List.length_cons, List.cons_append]
    have hidx : i + 1 + l1.length = i + (l1.length + 1) := by omega
    rw [hidx]

theorem validateConfig_iff (cfg : DetectorConfig) :
    validateConfig cfg = true ↔
      0 < cfg.threshold ∧ 0 ≤ cfg.decay ∧ cfg.decay < 1 := by
  simp [validateConfig, Bool.and_eq_true, decide_eq_true_eq, and_assoc]

/-- C1: For every frame sequence in which the instantaneous loudness
stays at or below `threshold` (the `pre` frames), then rises once above
it — a non-empty run `u :: up` of frames all louder than `threshold` —
and then monotonically decays back below it (the `down` frames,
non-increasing from the loud run's last frame), the detector emits
exactly one `HitEvent` over the whole sequence — regardless of how many
individual frames exceed `threshold` — and that event is emitted exactly
at the frame where the envelope crosses from ≤ `threshold` to >
`threshold` (index `pre.length`), carrying the envelope value at the
crossing as its `rms_value`. -/
theorem C1_single_hit (cfg : DetectorConfig) (hv : validateConfig cfg = true)
    (pre : List ℚ) (u : ℚ) (up down : List ℚ)
    (hpre : ∀ x ∈ pre, x ≤ cfg.threshold)
    (hloud : ∀ x ∈ u :: up, cfg.threshold < x)
    (hdown : List.Chain (fun a b => b ≤ a)
      ((u :: up).getLast (List.cons_ne_nil u up)) down)
    (_hdecayed : down.getLastD ((u :: up).getLast (List.cons_ne_nil u up)) ≤
      cfg.threshold) :
    ∃ ev : HitEvent,
      (runFrom cfg initState 0 (pre ++ (u :: up) ++ down)).2 =
        List.replicate pre.length none ++
          some ev :: List.replicate (up.length + down.length) none ∧
      ev.hit_number = 1 ∧ ev.timestamp = (pre.length : ℚ) ∧
      ev.rms_value = max u ((runFrom cfg initState 0 pre).1.envelope * cfg.decay) ∧
      cfg.threshold < ev.rms_value ∧ ev.threshold = cfg.threshold := by
  obtain ⟨hth, hd0, hd1⟩ := (validateConfig_iff cfg).mp hv
  have hquiet := runFrom_quiet cfg hd0 hd1.le hth.le pre initState 0 hpre rfl
    (by simpa [initState] using hth.le)
  set s1 := (runFrom cfg initState 0 pre).1 with hs1
  set env2 := max u (s1.envelope * cfg.decay) with henv2
  have hu : cfg.threshold < u := hloud u (List.mem_cons_self u up)
  have hlt : cfg.threshold < env2 := lt_of_lt_of_le hu (le_max_left _ _)
  have hstep : stepDetector cfg s1 (pre.length : ℕ) u =
      ({ envelope := env2, refractory := true, hitCount := s1.hitCount + 1 },
       some { timestamp := (pre.length : ℚ), hit_number := s1.hitCount + 1,
              rms_value := env2, threshold := cfg.threshold }) := by
    simp only [stepDetector, hquiet.2.1, ← henv2, if_pos hlt, Bool.false_eq_true,
      if_false]
  have hrf2 : (stepDetector cfg s1 (pre.length : ℕ) u).1.refractory = true := by
    rw [hstep]
  have hloudrun := runFrom_loud cfg up (stepDetector cfg s1 (pre.length : ℕ) u).1
    (pre.length + 1) hrf2 (fun y hy => hloud y (List.mem_cons_of_mem u hy))
  set s3 := (runFrom cfg (stepDetector cfg s1 (pre.length : ℕ) u).1
    (pre.length + 1) up).1 with hs3
  have henv3 : (u :: up).getLast (List.cons_ne_nil u up) ≤ s3.envelope := by
    rcases hup : up with _ | ⟨y, up2⟩
    · have : s3 = (stepDetector cfg s1 (pre.length : ℕ) u).1 := by
        rw [hs3, hup, runFrom_nil]
      rw [this, hstep]
      simp only [List.getLast_singleton]
      exact le_max_left _ _
    · have hlast : (u :: y :: up2).getLast (List.cons_ne_nil u (y :: up2)) =
          (y :: up2).getLast (List.cons_ne_nil y up2) := List.getLast_cons _
      rw [hlast]
      exact (hup ▸ hloudrun).2.2.2 _
        (List.getLast?_eq_getLast (y :: up2) (List.cons_ne_nil y up2))
  have hdecay := runFrom_decaying cfg hd0 hd1.le hth.le down s3
    (pre.length + 1 + up.length)
    (chain_ge_of_le hdown henv3)
    (by intro hfalse; rw [hs3] at hfalse; rw [hloudrun.2.1] at hfalse; cases hfalse)
  refine ⟨{ timestamp := (pre.length : ℚ), hit_number := 1,
            rms_value := env2, threshold := cfg.threshold }, ?_, rfl, rfl, henv2, hlt, rfl⟩
  have hcnt : s1.hitCount = 0 := by rw [hquiet.2.2.2]; rfl
  rw [List.append_assoc, List.cons_append,
    runFrom_append cfg pre (u :: (up ++ down)) initState 0]
  dsimp only
  simp only [Nat.zero_add, runFrom_cons]
  rw [runFrom_append cfg up down (stepDetector cfg s1 (pre.length : ℕ) u).1
    (pre.length + 1)]
  dsimp only
  rw [hquiet.1, hloudrun.1, ← hs3, hdecay.1, hstep, hcnt, List.replicate_add]

theorem C1_single_hit_witness :
    ∃ ev : HitEvent,
      (runFrom cfgV2 initState 0
          ([mkRat 1 20] ++ (mkRat 9 10 :: [mkRat 19 20]) ++ [mkRat 1 10, mkRat 1 50])).2 =
        List.replicate 1 none ++ some ev :: List.replicate (1 + 2) none ∧
      ev.hit_number = 1 ∧ ev.timestamp = ((1 : ℕ) : ℚ) ∧
      ev.rms_value =
        max (mkRat 9 10) ((runFrom cfgV2 initState 0 [mkRat 1 20]).1.envelope * cfgV2.decay) ∧
      cfgV2.threshold < ev.rms_value ∧ ev.threshold = cfgV2.threshold := by
  have h := C1_single_hit cfgV2 (by with_unfolding_all decide)
    [mkRat 1 20] (mkRat 9 10) [mkRat 19 20] [mkRat 1 10, mkRat 1 50]
    (by with_unfolding_all decide) (by with_unfolding_all decide)
    (List.Chain.cons (by with_unfolding_all decide)
      (List.Chain.cons (by with_unfolding_all decide) List.Chain.nil))
    (by with_unfolding_all decide)
  simpa using h

/-- C2: Over one detector run, the `hit_number` values of the emitted
events, in emission order, are exactly `1, 2, 3, …`: the n-th emitted
event carries `hit_number = n`, starting at 1, increasing by exactly 1
per event, never reused or reset within the run. -/
theorem C2_hit_numbers (cfg : DetectorConfig) (rs : List ℚ) :
    (detectorEvents cfg rs).map HitEvent.hit_number =
      List.range' 1 (detectorEvents cfg rs).length := by
  simpa [detectorEvents, initState] using runFrom_hit_numbers cfg rs initState 0

/-- C3: For every frame processed by the detector, the new envelope value
equals `max(instantaneous loudness, previous envelope * decay)`: the
envelope jumps immediately to a louder frame and otherwise falls off
multiplicatively by the decay factor. -/
theorem C3_envelope_update (cfg : DetectorConfig) (s : DetectorState)
    (t r : ℚ) :
    (stepDetector cfg s t r).1.envelope = max r (s.envelope * cfg.decay) :=
  stepDetector_envelope cfg s t r

/-- C6: The envelope is an invariant-preserving quantity of the detector
state: starting from a non-negative envelope it stays non-negative after
a step on any frame of non-negative loudness, and on a frame carrying no
new energy (instantaneous loudness 0) it does not increase: it moves
toward zero at exactly the configured decay rate. -/
theorem C6_envelope_nonneg_decay (cfg : DetectorConfig) (s : DetectorState)
    (t : ℚ) (hd0 : 0 ≤ cfg.decay) (hd1 : cfg.decay ≤ 1) (hs : 0 ≤ s.envelope) :
    (∀ r, 0 ≤ r → 0 ≤ (stepDetector cfg s t r).1.envelope) ∧
    (stepDetector cfg s t 0).1.envelope = s.envelope * cfg.decay ∧
    (stepDetector cfg s t 0).1.envelope ≤ s.envelope := by
  have hmul : 0 ≤ s.envelope * cfg.decay := mul_nonneg hs hd0
  refine ⟨fun r hr => ?_, ?_, ?_⟩
  · rw [stepDetector_envelope]
    exact le_trans hr (le_max_left _ _)
  · rw [stepDetector_envelope]
    exact max_eq_right hmul
  · rw [stepDetector_envelope, max_eq_right hmul]
    exact mul_le_of_le_one_right hs hd1

theorem C6_envelope_nonneg_decay_witness :
    0 ≤ (stepDetector cfgV2 ⟨mkRat 9 10, true, 1⟩ 3 (mkRat 1 2)).1.envelope ∧
    (stepDetector cfgV2 ⟨mkRat 9 10, true, 1⟩ 3 0).1.envelope = mkRat 171 200 := by
  have h := C6_envelope_nonneg_decay cfgV2 ⟨mkRat 9 10, true, 1⟩ 3
    (by with_unfolding_all decide) (by with_unfolding_all decide)
    (by with_unfolding_all decide)
  refine ⟨h.1 (mkRat 1 2) (by with_unfolding_all decide), ?_⟩
  rw [h.2.1]
  with_unfolding_all decide

/-- C4: A configuration with `decay ≥ 1` is rejected at startup, before
any audio capture, and a detector started with it can never emit a
`HitEvent` (for every frame sequence the start is refused); while every
configuration with a positive threshold and `decay` anywhere in `[0,1)`
— including `decay = 0` and `decay` arbitrarily close to 1 — passes
validation. -/
theorem C4_decay_config (cfg : DetectorConfig) :
    (1 ≤ cfg.decay → ∀ rs : List ℚ, startDetector cfg rs = none) ∧
    (0 < cfg.threshold → 0 ≤ cfg.decay → cfg.decay < 1 →
      validateConfig cfg = true) := by
  constructor
  · intro h rs
    have hv : validateConfig cfg = false := by
      simp [validateConfig, not_lt.mpr h]
    simp [startDetector, hv]
  · intro h1 h2 h3
    simp [validateConfig, h1, h2, h3]

theorem C4_decay_config_witness :
    startDetector ⟨mkRat 1 5, 1⟩ [mkRat 1 2] = none ∧
    validateConfig ⟨mkRat 1 5, 0⟩ = true ∧
    validateConfig ⟨mkRat 1 5, mkRat 999999 1000000⟩ = true :=
  ⟨(C4_decay_config ⟨mkRat 1 5, 1⟩).1 (by with_unfolding_all decide) [mkRat 1 2],
   (C4_decay_config ⟨mkRat 1 5, 0⟩).2 (by with_unfolding_all decide)
     (by with_unfolding_all decide) (by with_unfolding_all decide),
   (C4_decay_config ⟨mkRat 1 5, mkRat 999999 1000000⟩).2 (by with_unfolding_all decide)
     (by with_unfolding_all decide) (by with_unfolding_all decide)⟩

/-- C5: With `decay = 0.95` and `threshold = 0.2`, the frame RMS sequence
`[0.05, 0.05, 0.9, 0.05, 0.05, 0.05, 0.05]` yields exactly one hit, at
frame index 2 where the envelope first exceeds 0.2, with `rms_value`
equal to the envelope there (the frame's instantaneous RMS 0.9); the
detector is still refractory afterwards, and appending 30 more quiet
frames (during which the envelope decays to ≤ 0.2) still yields no
further hit until a new rise above 0.2 occurs, which then emits hit 2. -/
theorem C5_synthetic_sequence :
    (runFrom cfgV2 initState 0 [1/20, 1/20, 9/10, 1/20, 1/20, 1/20, 1/20]).2 =
      [none, none, some ⟨2, 1, 9/10, 1/5⟩, none, none, none, none] ∧
    (runFrom cfgV2 initState 0 [1/20, 1/20, 9/10, 1/20, 1/20, 1/20, 1/20]).1.refractory = true ∧
    (runFrom cfgV2 initState 0 [1/20, 1/20, 9/10, 1/20, 1/20, 1/20, 1/20]).1.hitCount = 1 ∧
    detectorEvents cfgV2
      ([1/20, 1/20, 9/10, 1/20, 1/20, 1/20, 1/20] ++ List.replicate 30 (1/20)) =
      [⟨2, 1, 9/10, 1/5⟩] ∧
    (detectorEvents cfgV2
      ([1/20, 1/20, 9/10, 1/20, 1/20, 1/20, 1/20] ++ List.replicate 30 (1/20) ++ [9/10])).map
        HitEvent.hit_number = [1, 2] := by
  refine ⟨?_, ?_, ?_, ?_, ?_⟩ <;> with_unfolding_all decide

theorem brun_nil (failing : ℕ → Bool) (live : List ℕ) :
    brun failing live [] = (live, []) := rfl

theorem brun_cons (failing : ℕ → Bool) (live : List ℕ) (e : BroadcastEvent)
    (es : List BroadcastEvent) :
    brun failing live (e :: es) =
      ((brun failing (bstep failing live e).1 es).1,
       (bstep failing live e).2 ++ (brun failing (bstep failing live e).1 es).2) := rfl


/-- C7: A single `HitEvent` broadcast with N live connections performs
exactly N deliveries, one per live connection and all carrying the
serialized event; a client not in the live set (e.g. disconnected
earlier) is not among the recipients; a delivery failure removes only
the failing connections from the live set while every other live client
both gets its delivery and stays live. -/
theorem C7_fanout (failing : ℕ → Bool) (live : List ℕ) (ev : HitEvent) :
    ((bstep failing live (.hit ev)).2.map Prod.fst = live) ∧
    (∀ d ∈ (bstep failing live (.hit ev)).2, d.2 = ServerMsg.hitMsg ev) ∧
    (∀ c, c ∉ live → ∀ m, (c, m) ∉ (bstep failing live (.hit ev)).2) ∧
    (∀ c ∈ live, failing c = false →
      (c, ServerMsg.hitMsg ev) ∈ (bstep failing live (.hit ev)).2 ∧
      c ∈ (bstep failing live (.hit ev)).1) ∧
    (∀ c ∈ live, failing c = true → c ∉ (bstep failing live (.hit ev)).1) := by
  refine ⟨?_, ?_, ?_, ?_, ?_⟩
  · simp only [bstep, List.map_map]
    have hcomp : (Prod.fst ∘ fun c : ℕ => (c, ServerMsg.hitMsg ev)) = fun c : ℕ => c := rfl
    rw [hcomp]
    exact List.map_id' live
  · intro d hd
    simp only [bstep, List.mem_map] at hd
    obtain ⟨c, _, rfl⟩ := hd
    rfl
  · intro c hc m hm
    simp only [bstep, List.mem_map] at hm
    obtain ⟨d, hd, hde⟩ := hm
    exact hc (by rw [← (Prod.mk.injEq _ _ _ _).mp hde |>.1]; exact hd)
  · intro c hc hfc
    refine ⟨?_, ?_⟩
    · simp only [bstep, List.mem_map]
      exact ⟨c, hc, rfl⟩
    · simp only [bstep, List.mem_filter]
      exact ⟨hc, by rw [hfc]; rfl⟩
  · intro c hc hfc hmem
    simp only [bstep, List.mem_filter] at hmem
    rw [hfc] at hmem
    exact absurd hmem.2 (by simp)

theorem C7_fanout_witness :
    ((bstep (fun c => c == 2) [1, 2, 3] (.hit ⟨0, 1, mkRat 9 10, mkRat 1 5⟩)).2.map
        Prod.fst = [1, 2, 3]) ∧
    (1, ServerMsg.hitMsg ⟨0, 1, mkRat 9 10, mkRat 1 5⟩) ∈
      (bstep (fun c => c == 2) [1, 2, 3] (.hit ⟨0, 1, mkRat 9 10, mkRat 1 5⟩)).2 ∧
    2 ∉ (bstep (fun c => c == 2) [1, 2, 3] (.hit ⟨0, 1, mkRat 9 10, mkRat 1 5⟩)).1 ∧
    (∀ m, (7, m) ∉ (bstep (fun c => c == 2) [1, 2, 3]
      (.hit ⟨0, 1, mkRat 9 10, mkRat 1 5⟩)).2) := by
  have h := C7_fanout (fun c => c == 2) [1, 2, 3] ⟨0, 1, mkRat 9 10, mkRat 1 5⟩
  exact ⟨h.1, (h.2.2.2.1 1 (by simp) (by rfl)).1,
    h.2.2.2.2 2 (by simp) (by rfl),
    h.2.2.1 7 (by simp)⟩

theorem brun_no_deliveries_to_absent (failing : ℕ → Bool) (c : ℕ) :
    ∀ (es : List BroadcastEvent) (live : List ℕ),
      c ∉ live → (∀ e ∈ es, acceptsClient c e = false) →
      (∀ m, (c, m) ∉ (brun failing live es).2) ∧ c ∉ (brun failing live es).1 := by
  intro es
  induction es with
  | nil => intro live hc _; simpa [brun_nil] using hc
  | cons e es ih =>
    intro live hc hacc
    have hste : (∀ m, (c, m) ∉ (bstep failing live e).2) ∧
        c ∉ (bstep failing live e).1 := by
      rcases e with ⟨d, t⟩ | d | ev
      · have hd : (d == c) = false := hacc _ (List.mem_cons_self _ _)
        constructor
        · intro m
          simp only [bstep, List.mem_singleton, Prod.mk.injEq, not_and]
          intro hdc
          exact absurd (by simp [hdc]) (by simp [hd] : ¬ (d == c) = true)
        · simp only [bstep, List.mem_cons, not_or]
          exact ⟨fun hdc => by simp [hdc.symm] at hd, hc⟩
      · constructor
        · intro m
          simp [bstep]
        · simp only [bstep]
          intro hmem
          exact hc (List.mem_of_mem_erase hmem)
      · constructor
        · intro m hmem
          simp only [bstep, List.mem_map] at hmem
          obtain ⟨d, hd, hde⟩ := hmem
          exact hc (by rw [← (Prod.mk.injEq _ _ _ _).mp hde |>.1]; exact hd)
        · simp only [bstep]
          intro hmem
          exact hc (List.mem_of_mem_filter hmem)
    have ihx := ih (bstep failing live e).1 hste.2
      (fun f hf => hacc f (List.mem_cons_of_mem e hf))
    rw [brun_cons]
    refine ⟨fun m => ?_, ihx.2⟩
    simp only [List.mem_append, not_or]
    exact ⟨hste.1 m, ihx.1 m⟩

theorem brun_no_connected_to_unaccepted (failing : ℕ → Bool) (c : ℕ) :
    ∀ (es : List BroadcastEvent) (live : List ℕ),
      (∀ e ∈ es, acceptsClient c e = false) →
      ∀ u m, (c, ServerMsg.connectedMsg u m) ∉ (brun failing live es).2 := by
  intro es
  induction es with
  | nil => intro live _ u m; simp [brun_nil]
  | cons e es ih =>
    intro live hacc u m
    rw [brun_cons]
    simp only [List.mem_append, not_or]
    refine ⟨?_, ih (bstep failing live e).1
      (fun f hf => hacc f (List.mem_cons_of_mem e hf)) u m⟩
    rcases e with ⟨d, t⟩ | d | ev
    · have hd : (d == c) = false := hacc _ (List.mem_cons_self _ _)
      simp only [bstep, List.mem_singleton, Prod.mk.injEq, not_and]
      intro hdc
      exact absurd (by simp [hdc]) (by simp [hd] : ¬ (d == c) = true)
    · simp [bstep]
    · intro hmem
      simp only [bstep, List.mem_map] at hmem
      obtain ⟨d, _, hde⟩ := hmem
      exact ServerMsg.noConfusion ((Prod.mk.injEq _ _ _ _).mp hde).2

/-- C8: A client connecting mid-session receives exactly one `connected`
message, which is sent only to that client (it is the lone delivery of
the accept step), receives no message at all — in particular zero `hit`
messages — for events emitted before its connection, and is sent no
further `connected` message afterwards. -/
theorem C8_connect_midsession (failing : ℕ → Bool) (c : ℕ) (t : ℚ)
    (es₁ es₂ : List BroadcastEvent)
    (h₁ : ∀ e ∈ es₁, acceptsClient c e = false)
    (h₂ : ∀ e ∈ es₂, acceptsClient c e = false) :
    ∃ d₂ : List (ℕ × ServerMsg),
      (brun failing [] (es₁ ++ BroadcastEvent.accept c t :: es₂)).2 =
        (brun failing [] es₁).2 ++
          (c, ServerMsg.connectedMsg t connectedText) :: d₂ ∧
      (∀ m, (c, m) ∉ (brun failing [] es₁).2) ∧
      (∀ u m, (c, ServerMsg.connectedMsg u m) ∉ d₂) := by
  have habsent := brun_no_deliveries_to_absent failing c es₁ [] (by simp) h₁
  -- split the run at the accept event
  have hsplit : ∀ (l1 : List BroadcastEvent) (live : List ℕ) (l2 : List BroadcastEvent),
      brun failing live (l1 ++ l2) =
        ((brun failing (brun failing live l1).1 l2).1,
         (brun failing live l1).2 ++ (brun failing (brun failing live l1).1 l2).2) := by
    intro l1
    induction l1 with
    | nil => intro live l2; simp [brun_nil]
    | cons e l1 ih =>
      intro live l2
      simp only [List.cons_append, brun_cons, ih, List.append_assoc]
  rw [hsplit es₁ [] (BroadcastEvent.accept c t :: es₂), brun_cons]
  refine ⟨(brun failing (bstep failing (brun failing [] es₁).1
      (BroadcastEvent.accept c t)).1 es₂).2, ?_, habsent.1, ?_⟩
  · simp [bstep]
  · exact fun u m => brun_no_connected_to_unaccepted failing c es₂ _ h₂ u m

theorem C8_connect_midsession_witness :
    ∃ d₂ : List (ℕ × ServerMsg),
      (brun (fun _ => false) []
          ([BroadcastEvent.accept 5 0, BroadcastEvent.hit ⟨1, 1, mkRat 9 10, mkRat 1 5⟩] ++
            BroadcastEvent.accept 7 2 ::
              [BroadcastEvent.hit ⟨3, 2, mkRat 1 2, mkRat 1 5⟩])).2 =
        (brun (fun _ => false) []
          [BroadcastEvent.accept 5 0, BroadcastEvent.hit ⟨1, 1, mkRat 9 10, mkRat 1 5⟩]).2 ++
          (7, ServerMsg.connectedMsg 2 connectedText) :: d₂ ∧
      (∀ m, (7, m) ∉ (brun (fun _ => false) []
          [BroadcastEvent.accept 5 0, BroadcastEvent.hit ⟨1, 1, mkRat 9 10, mkRat 1 5⟩]).2) ∧
      (∀ u m, (7, ServerMsg.connectedMsg u m) ∉ d₂) :=
  C8_connect_midsession (fun _ => false) 7 2
    [BroadcastEvent.accept 5 0, BroadcastEvent.hit ⟨1, 1, mkRat 9 10, mkRat 1 5⟩]
    [BroadcastEvent.hit ⟨3, 2, mkRat 1 2, mkRat 1 5⟩]
    (by intro e he; fin_cases he <;> rfl)
    (by intro e he; fin_cases he; rfl)


/-- C9: In the game client's message handler, a parsed `hit` message
increments the score by exactly 1 if and only if the current game status
is `playing`; a `hit` arriving in any other status (`ready`,
`countdown`, `ended`) and every `connected` message leave the whole
state — in particular `score`, `currentCombo` and `bestCombo` —
unchanged. -/
theorem C9_hit_scores_only_when_playing (status : GameStatus) (now : ℤ)
    (s : ClientGameState) (t : ℤ) (n : ℕ) (rv th : ℚ) (ct : ℤ) (m : String) :
    (status = .playing →
      (onmessage status now (some (.hitMsg t n rv th)) s).score = s.score + 1) ∧
    (status ≠ .playing →
      onmessage status now (some (.hitMsg t n rv th)) s = s) ∧
    onmessage status now (some (.connectedMsg ct m)) s = s := by
  refine ⟨fun hp => ?_, fun hnp => ?_, rfl⟩
  · simp only [onmessage, if_pos hp]
  · simp only [onmessage, if_neg hnp]

theorem C9_hit_scores_only_when_playing_witness :
    (onmessage .playing 1000 (some (.hitMsg 999 1 (mkRat 9 10) (mkRat 1 5)))
      ⟨3, 2, 2, 500, [500], false, 0⟩).score = 3 + 1 ∧
    onmessage .ready 1000 (some (.hitMsg 999 1 (mkRat 9 10) (mkRat 1 5)))
      ⟨3, 2, 2, 500, [500], false, 0⟩ = ⟨3, 2, 2, 500, [500], false, 0⟩ ∧
    onmessage .ended 1000 (some (.connectedMsg 999 "ready"))
      ⟨3, 2, 2, 500, [500], false, 0⟩ = ⟨3, 2, 2, 500, [500], false, 0⟩ :=
  ⟨(C9_hit_scores_only_when_playing .playing 1000 ⟨3, 2, 2, 500, [500], false, 0⟩
      999 1 (mkRat 9 10) (mkRat 1 5) 999 "ready").1 rfl,
   (C9_hit_scores_only_when_playing .ready 1000 ⟨3, 2, 2, 500, [500], false, 0⟩
      999 1 (mkRat 9 10) (mkRat 1 5) 999 "ready").2.1 (by simp),
   (C9_hit_scores_only_when_playing .ended 1000 ⟨3, 2, 2, 500, [500], false, 0⟩
      999 1 (mkRat 9 10) (mkRat 1 5) 999 "ready").2.2⟩

/-- C10: When the incoming WebSocket data is not valid JSON (the parse
throws, modelled by `data = none`), the handler's catch leaves all game
state unchanged: score, currentCombo, bestCombo and the recorded hit
timestamps (and everything else in the state) are the same after
handling as before, in every game status. -/
theorem C10_parse_failure_no_change (status : GameStatus) (now : ℤ)
    (s : ClientGameState) :
    (onmessage status now none s).score = s.score ∧
    (onmessage status now none s).currentCombo = s.currentCombo ∧
    (onmessage status now none s).bestCombo = s.bestCombo ∧
    (onmessage status now none s).hitTimestamps = s.hitTimestamps ∧
    onmessage status now none s = s :=
  ⟨rfl, rfl, rfl, rfl, rfl⟩

end SnareDrum
